import Mathlib

/-
Verification of the IEEE-754 bit-field decoder (ieee754.c).

Modelling conventions:
- Machine integers `uint32_t` / `uint64_t` are `Nat` values; the C operators
  `>>`, `<<`, `&`, `|`, `^` become `>>>`, `<<<`, `&&&`, `|||`, `^^^` on `Nat`.
  The inputs of the decoders are 32-bit resp. 64-bit patterns, expressed as
  hypotheses `u < 2 ^ 32` / `u < 2 ^ 64` where a theorem needs them.
- A C `float` / `double` value is modelled by its IEEE-754 binary32 /
  binary64 storage bit pattern, so the `memcpy` reinterpretation in
  `float_to_u32` / `double_to_u64` is the identity on the pattern.
- The text the program prints is modelled as a list of output tokens `Tok`;
  every `printf` / `puts` / `putchar` call of the C source is transcribed
  into the token list it emits.  The `%.9g` / `%.17g` decimal rendering of
  the floating-point value itself is kept as an opaque token carrying the
  value's bit pattern (the spec treats that rendering as presentation glue,
  outside the core).
-/

namespace IEEE754

/-- One token of program output.  `hex pad n` stands for `printf "%0*X"`
    (hexadecimal, zero-padded to `pad` nibbles), `dec n` for `printf "%u"`
    (decimal unsigned), `gFloat bits` / `gDouble bits` for the `%.9g` /
    `%.17g` rendering of the floating-point value whose storage bits are
    `bits`. -/
inductive Tok where
  | str (s : String)
  | chr (c : Char)
  | hex (pad : Nat) (n : Nat)
  | dec (n : Nat)
  | gFloat (bits : Nat)
  | gDouble (bits : Nat)
deriving DecidableEq, Repr

/-- The decoded representation of one floating-point value (spec data model
    FloatBits).  The C source keeps these as the locals `u`, `sign`, `exp`,
    `frac` of `decode_float` / `decode_double`; the record collects them. -/
structure FloatBits where
  width : Nat
  raw : Nat
  sign : Nat
  exponent : Nat
  fraction : Nat
deriving DecidableEq, Repr

/-- C `float_to_u32`: `memcpy` of a float's storage into a `uint32_t`.
    Floats are modelled by their storage bit pattern, so this is the
    identity. -/
def float_to_u32 (f : Nat) : Nat := f

/-- C `double_to_u64`: `memcpy` of a double's storage into a `uint64_t`. -/
def double_to_u64 (d : Nat) : Nat := d

/-- Field extraction of C `decode_float` (lines 32-35 of ieee754.c). -/
def decode_float (f : Nat) : FloatBits :=
  let u := float_to_u32 f
  { width := 32
    raw := u
    sign := (u >>> 31) &&& 1
    exponent := (u >>> 23) &&& 0xFF
    fraction := u &&& 0x7FFFFF }

/-- Field extraction of C `decode_double` (lines 47-50 of ieee754.c). -/
def decode_double (d : Nat) : FloatBits :=
  let u := double_to_u64 d
  { width := 64
    raw := u
    sign := (u >>> 63) &&& 1
    exponent := (u >>> 52) &&& 0x7FF
    fraction := u &&& 0xFFFFFFFFFFFFF }

/-- C `print_bits_u32`: the 32 bits of `x`, most significant first, with a
    space after bit 31 (the sign bit) and after bit 23 (the last exponent
    bit). -/
def print_bits_u32 (x : Nat) : List Tok :=
  (List.range 32).reverse.flatMap (fun i =>
    Tok.chr (if (x >>> i) &&& 1 == 1 then '1' else '0') ::
      (if i == 31 || i == 23 then [Tok.chr ' '] else []))

/-- C `print_bits_u64`: the 64 bits of `x`, most significant first, with a
    space after bit 63 and after bit 52. -/
def print_bits_u64 (x : Nat) : List Tok :=
  (List.range 64).reverse.flatMap (fun i =>
    Tok.chr (if (x >>> i) &&& 1 == 1 then '1' else '0') ::
      (if i == 63 || i == 52 then [Tok.chr ' '] else []))

/-- Output of `printf("float = %.9g\n", f)`. -/
def float_val_line (f : Nat) : List Tok :=
  [Tok.str "float = ", Tok.gFloat f, Tok.str "\n"]

/-- Output of `printf("bits  = ")`, `print_bits_u32(u)`, `putchar('\n')`. -/
def bits_line_32 (u : Nat) : List Tok :=
  [Tok.str "bits  = "] ++ print_bits_u32 u ++ [Tok.chr '\n']

/-- Output of `printf("sign  = %u\n", sign)`. -/
def sign_line_32 (s : Nat) : List Tok :=
  [Tok.str "sign  = ", Tok.dec s, Tok.str "\n"]

/-- Output of `printf("exp   = 0x%02X (%u)\n", exp, exp)`. -/
def exp_line_32 (e : Nat) : List Tok :=
  [Tok.str "exp   = 0x", Tok.hex 2 e, Tok.str " (", Tok.dec e, Tok.str ")\n"]

/-- Output of `printf("frac  = 0x%06X (%u)\n", frac, frac)`. -/
def frac_line_32 (f : Nat) : List Tok :=
  [Tok.str "frac  = 0x", Tok.hex 6 f, Tok.str " (", Tok.dec f, Tok.str ")\n"]

/-- The whole output of one C `decode_float` call. -/
def decode_float_out (f : Nat) : List Tok :=
  let b := decode_float f
  float_val_line f ++ bits_line_32 b.raw ++ sign_line_32 b.sign ++
    exp_line_32 b.exponent ++ frac_line_32 b.fraction

/-- Output of `printf("double = %.17g\n", d)`. -/
def double_val_line (d : Nat) : List Tok :=
  [Tok.str "double = ", Tok.gDouble d, Tok.str "\n"]

/-- Output of `printf("bits   = ")`, `print_bits_u64(u)`, `putchar('\n')`. -/
def bits_line_64 (u : Nat) : List Tok :=
  [Tok.str "bits   = "] ++ print_bits_u64 u ++ [Tok.chr '\n']

/-- Output of `printf("sign   = %llu\n", sign)`. -/
def sign_line_64 (s : Nat) : List Tok :=
  [Tok.str "sign   = ", Tok.dec s, Tok.str "\n"]

/-- Output of `printf("exp    = 0x%03llX (%llu)\n", exp, exp)`. -/
def exp_line_64 (e : Nat) : List Tok :=
  [Tok.str "exp    = 0x", Tok.hex 3 e, Tok.str " (", Tok.dec e, Tok.str ")\n"]

/-- Output of `printf("frac   = 0x%013llX\n", frac)`: the 64-bit fraction is
    printed in hexadecimal only, there is no decimal conversion in this
    format string. -/
def frac_line_64 (f : Nat) : List Tok :=
  [Tok.str "frac   = 0x", Tok.hex 13 f, Tok.str "\n"]

/-- The whole output of one C `decode_double` call. -/
def decode_double_out (d : Nat) : List Tok :=
  let b := decode_double d
  double_val_line d ++ bits_line_64 b.raw ++ sign_line_64 b.sign ++
    exp_line_64 b.exponent ++ frac_line_64 b.fraction

/-- Output of `puts("----")` (a trailing newline is appended by `puts`). -/
def sep_line : List Tok := [Tok.str "----\n"]

/-- IEEE-754 binary32 storage pattern of the literal `5.0f`:
    5.0 = 2^2 * 1.25, so sign 0, biased exponent 129, fraction 0x200000. -/
def bits_5_0f : Nat := 0x40A00000

/-- IEEE-754 binary32 storage pattern of the literal `0.1f` (0.1 rounded to
    nearest binary32; the rounding is certified by a theorem below). -/
def bits_0_1f : Nat := 0x3DCCCCCD

/-- IEEE-754 binary64 storage pattern of the literal `0.1` (0.1 rounded to
    nearest binary64; the rounding is certified by a theorem below). -/
def bits_0_1d : Nat := 0x3FB999999999999A

/-- IEEE-754 binary32 storage pattern of the literal `-0.0f`. -/
def bits_neg0f : Nat := 0x80000000

/-- The byte stream `main` writes: four decodes of the hard-coded sample
    values, separated by `puts("----")` lines (lines 62-69 of ieee754.c). -/
def main_output : List Tok :=
  decode_float_out bits_5_0f ++ sep_line ++
    decode_float_out bits_0_1f ++ sep_line ++
      decode_double_out bits_0_1d ++ sep_line ++
        decode_float_out bits_neg0f

/-- C `main` as a function of the ambient standard-input stream: `main(void)`
    never reads it, writes `main_output` and returns 0. -/
def main_run (_stdin : List Char) : List Tok × Nat := (main_output, 0)

/-- Modelled from the spec: the value denoted by decoded fields, per the
    normalized and subnormal formulas of the spec (the C program never
    computes this value; it is used here to certify the sample bit
    patterns and the negation model). -/
def val (bias p s e f : Nat) : ℚ :=
  if e = 0 then (-1) ^ s * (2 : ℚ) ^ ((1 : ℤ) - (bias : ℤ)) * ((f : ℚ) / 2 ^ p)
  else (-1) ^ s * (2 : ℚ) ^ ((e : ℤ) - (bias : ℤ)) * (1 + (f : ℚ) / 2 ^ p)

/-- Value of a decoded binary32 record (bias 127, 23 fraction bits). -/
def val32 (b : FloatBits) : ℚ := val 127 23 b.sign b.exponent b.fraction

/-- Value of a decoded binary64 record (bias 1023, 52 fraction bits). -/
def val64 (b : FloatBits) : ℚ := val 1023 52 b.sign b.exponent b.fraction

/-- The five classification outcomes of the spec table. -/
inductive FClass where
  | signedZero
  | subnormal
  | normal
  | signedInfinity
  | nan
deriving DecidableEq, Repr

/-- Modelled from the spec: the classification table of spec section 4.1 as a
    pure function of the two fields.  The spec describes it as derived, not
    stored; the C source contains no classification code. -/
def classify (emax e f : Nat) : FClass :=
  if e = 0 then (if f = 0 then FClass.signedZero else FClass.subnormal)
  else if e = emax then (if f = 0 then FClass.signedInfinity else FClass.nan)
  else FClass.normal

/-- Modelled from the spec: the side condition of one row of the
    classification table of spec section 4.1. -/
def rowApplies (emax : Nat) (c : FClass) (e f : Nat) : Prop :=
  match c with
  | FClass.signedZero => e = 0 ∧ f = 0
  | FClass.subnormal => e = 0 ∧ f ≠ 0
  | FClass.normal => 0 < e ∧ e < emax
  | FClass.signedInfinity => e = emax ∧ f = 0
  | FClass.nan => e = emax ∧ f ≠ 0

/-- Modelled from the spec: negating an IEEE-754 value toggles the sign bit
    and leaves the rest of the pattern unchanged (the value formula is
    `(-1)^s * magnitude` with the magnitude determined by the other bits);
    the xor model is certified below by showing it negates `val`. -/
def neg_float (u : Nat) : Nat := u ^^^ 0x80000000

/-- Modelled from the spec: binary64 negation, toggling bit 63. -/
def neg_double (u : Nat) : Nat := u ^^^ 0x8000000000000000

/-- Lossless reassembly of the 32-bit pattern from the decoded fields. -/
def reassembles32 (u : Nat) : Prop :=
  (decode_float u).sign <<< 31 ||| (decode_float u).exponent <<< 23 |||
    (decode_float u).fraction = u

/-- Lossless reassembly of the 64-bit pattern from the decoded fields. -/
def reassembles64 (u : Nat) : Prop :=
  (decode_double u).sign <<< 63 ||| (decode_double u).exponent <<< 52 |||
    (decode_double u).fraction = u

/-- The three shifted 32-bit fields occupy pairwise disjoint bit ranges. -/
def fieldsDisjoint32 (u : Nat) : Prop :=
  ((decode_float u).sign <<< 31) &&& ((decode_float u).exponent <<< 23) = 0 ∧
  ((decode_float u).sign <<< 31) &&& (decode_float u).fraction = 0 ∧
  ((decode_float u).exponent <<< 23) &&& (decode_float u).fraction = 0

/-- The three shifted 64-bit fields occupy pairwise disjoint bit ranges. -/
def fieldsDisjoint64 (u : Nat) : Prop :=
  ((decode_double u).sign <<< 63) &&& ((decode_double u).exponent <<< 52) = 0 ∧
  ((decode_double u).sign <<< 63) &&& (decode_double u).fraction = 0 ∧
  ((decode_double u).exponent <<< 52) &&& (decode_double u).fraction = 0

/-- The decoded 32-bit fields read off the bit ranges of the spec: sign is
    bit 31, exponent is bits 30-23, fraction is bits 22-0. -/
def specFields32 (u : Nat) : Prop :=
  (decode_float u).sign = (u.testBit 31).toNat ∧
  (decode_float u).exponent = u / 2 ^ 23 % 2 ^ 8 ∧
  (decode_float u).fraction = u % 2 ^ 23

/-- The decoded 64-bit fields read off the bit ranges of the spec: sign is
    bit 63, exponent is bits 62-52, fraction is bits 51-0. -/
def specFields64 (u : Nat) : Prop :=
  (decode_double u).sign = (u.testBit 63).toNat ∧
  (decode_double u).exponent = u / 2 ^ 52 % 2 ^ 11 ∧
  (decode_double u).fraction = u % 2 ^ 52

/-- The FloatBits invariants of the spec for the 32-bit format. -/
def wellFormed32 (b : FloatBits) : Prop :=
  (b.sign = 0 ∨ b.sign = 1) ∧ b.exponent < 2 ^ 8 ∧ b.fraction < 2 ^ 23

/-- The FloatBits invariants of the spec for the 64-bit format. -/
def wellFormed64 (b : FloatBits) : Prop :=
  (b.sign = 0 ∨ b.sign = 1) ∧ b.exponent < 2 ^ 11 ∧ b.fraction < 2 ^ 52

/-- Decoding the negated pattern changes only the sign field: exponent,
    fraction and all raw bits below the sign bit are unchanged, the sign
    flips, and the denoted value is negated (32-bit format). -/
def negOnlySign32 (u : Nat) : Prop :=
  (decode_float (neg_float u)).exponent = (decode_float u).exponent ∧
  (decode_float (neg_float u)).fraction = (decode_float u).fraction ∧
  (decode_float (neg_float u)).sign = 1 - (decode_float u).sign ∧
  (decode_float (neg_float u)).raw % 2 ^ 31 = (decode_float u).raw % 2 ^ 31 ∧
  val32 (decode_float (neg_float u)) = - val32 (decode_float u)

/-- Decoding the negated pattern changes only the sign field (64-bit). -/
def negOnlySign64 (u : Nat) : Prop :=
  (decode_double (neg_double u)).exponent = (decode_double u).exponent ∧
  (decode_double (neg_double u)).fraction = (decode_double u).fraction ∧
  (decode_double (neg_double u)).sign = 1 - (decode_double u).sign ∧
  (decode_double (neg_double u)).raw % 2 ^ 63 = (decode_double u).raw % 2 ^ 63 ∧
  val64 (decode_double (neg_double u)) = - val64 (decode_double u)

/-- The 32-bit sign extraction is the top bit as a div-mod expression. -/
lemma decode_float_sign (u : Nat) : (decode_float u).sign = u / 2 ^ 31 % 2 := by
  show (u >>> 31) &&& 1 = u / 2 ^ 31 % 2
  rw [Nat.shiftRight_eq_div_pow, Nat.and_one_is_mod]

/-- The 32-bit exponent extraction is bits 30-23 as a div-mod expression. -/
lemma decode_float_exp (u : Nat) : (decode_float u).exponent = u / 2 ^ 23 % 2 ^ 8 := by
  show (u >>> 23) &&& 0xFF = u / 2 ^ 23 % 2 ^ 8
  rw [Nat.shiftRight_eq_div_pow]
  have h := Nat.and_pow_two_sub_one_eq_mod (u / 2 ^ 23) 8
  norm_num at h ⊢
  exact h

/-- The 32-bit fraction extraction is bits 22-0 as a div-mod expression. -/
lemma decode_float_frac (u : Nat) : (decode_float u).fraction = u % 2 ^ 23 := by
  show u &&& 0x7FFFFF = u % 2 ^ 23
  have h := Nat.and_pow_two_sub_one_eq_mod u 23
  norm_num at h ⊢
  exact h

/-- The 64-bit sign extraction is the top bit as a div-mod expression. -/
lemma decode_double_sign (u : Nat) : (decode_double u).sign = u / 2 ^ 63 % 2 := by
  show (u >>> 63) &&& 1 = u / 2 ^ 63 % 2
  rw [Nat.shiftRight_eq_div_pow, Nat.and_one_is_mod]

/-- The 64-bit exponent extraction is bits 62-52 as a div-mod expression. -/
lemma decode_double_exp (u : Nat) : (decode_double u).exponent = u / 2 ^ 52 % 2 ^ 11 := by
  show (u >>> 52) &&& 0x7FF = u / 2 ^ 52 % 2 ^ 11
  rw [Nat.shiftRight_eq_div_pow]
  have h := Nat.and_pow_two_sub_one_eq_mod (u / 2 ^ 52) 11
  norm_num at h ⊢
  exact h

/-- The 64-bit fraction extraction is bits 51-0 as a div-mod expression. -/
lemma decode_double_frac (u : Nat) : (decode_double u).fraction = u % 2 ^ 52 := by
  show u &&& 0xFFFFFFFFFFFFF = u % 2 ^ 52
  have h := Nat.and_pow_two_sub_one_eq_mod u 52
  norm_num at h ⊢
  exact h

/-- A left shift by `m` is bitwise disjoint from any value below `2 ^ m`. -/
lemma shiftLeft_and_eq_zero {b : Nat} (a m : Nat) (hb : b < 2 ^ m) :
    (a <<< m) &&& b = 0 := by
  apply Nat.zero_of_testBit_eq_false
  intro i
  rw [Nat.testBit_land, Nat.testBit_shiftLeft]
  by_cases h : m ≤ i
  · have hbi : b.testBit i = false :=
      Nat.testBit_eq_false_of_lt (lt_of_lt_of_le hb (Nat.pow_le_pow_right (by norm_num) h))
    simp [hbi]
  · simp [h]

/-- Disjoint bit patterns recombine additively: `2 ^ k * a ||| b = 2 ^ k * a + b`. -/
lemma or_eq_add {b : Nat} (a k : Nat) (hb : b < 2 ^ k) :
    a * 2 ^ k ||| b = a * 2 ^ k + b := by
  have h := Nat.mul_add_lt_is_or hb a
  rw [Nat.mul_comm a (2 ^ k)]
  exact h.symm

/-- The decoded 32-bit fields satisfy the spec invariants. -/
lemma wellFormed32_decode (u : Nat) : wellFormed32 (decode_float u) := by
  refine ⟨?_, ?_, ?_⟩
  · rw [decode_float_sign]; omega
  · rw [decode_float_exp]; exact Nat.mod_lt _ (by norm_num)
  · rw [decode_float_frac]; exact Nat.mod_lt _ (by norm_num)

/-- The decoded 64-bit fields satisfy the spec invariants. -/
lemma wellFormed64_decode (u : Nat) : wellFormed64 (decode_double u) := by
  refine ⟨?_, ?_, ?_⟩
  · rw [decode_double_sign]; omega
  · rw [decode_double_exp]; exact Nat.mod_lt _ (by norm_num)
  · rw [decode_double_frac]; exact Nat.mod_lt _ (by norm_num)

/-- Reassembly of the 32-bit pattern from the decoded fields. -/
lemma reassembles32_decode (u : Nat) (hu : u < 2 ^ 32) : reassembles32 u := by
  unfold reassembles32
  rw [decode_float_sign, decode_float_exp, decode_float_frac,
    Nat.shiftLeft_eq, Nat.shiftLeft_eq, Nat.lor_assoc]
  rw [or_eq_add _ 23 (Nat.mod_lt _ (by norm_num))]
  rw [or_eq_add _ 31 (by have := Nat.mod_lt (u / 2 ^ 23) (y := 2 ^ 8) (by norm_num); omega)]
  omega

/-- Reassembly of the 64-bit pattern from the decoded fields. -/
lemma reassembles64_decode (u : Nat) (hu : u < 2 ^ 64) : reassembles64 u := by
  unfold reassembles64
  rw [decode_double_sign, decode_double_exp, decode_double_frac,
    Nat.shiftLeft_eq, Nat.shiftLeft_eq, Nat.lor_assoc]
  rw [or_eq_add _ 52 (Nat.mod_lt _ (by norm_num))]
  rw [or_eq_add _ 63 (by have := Nat.mod_lt (u / 2 ^ 52) (y := 2 ^ 11) (by norm_num); omega)]
  omega

/-- Pairwise disjointness of the shifted 32-bit fields. -/
lemma fieldsDisjoint32_decode (u : Nat) : fieldsDisjoint32 u := by
  obtain ⟨-, he, hf⟩ := wellFormed32_decode u
  refine ⟨?_, ?_, ?_⟩
  · exact shiftLeft_and_eq_zero _ 31 (by rw [Nat.shiftLeft_eq]; omega)
  · exact shiftLeft_and_eq_zero _ 31 (by omega)
  · exact shiftLeft_and_eq_zero _ 23 hf

/-- Pairwise disjointness of the shifted 64-bit fields. -/
lemma fieldsDisjoint64_decode (u : Nat) : fieldsDisjoint64 u := by
  obtain ⟨-, he, hf⟩ := wellFormed64_decode u
  refine ⟨?_, ?_, ?_⟩
  · exact shiftLeft_and_eq_zero _ 63 (by rw [Nat.shiftLeft_eq]; omega)
  · exact shiftLeft_and_eq_zero _ 63 (by omega)
  · exact shiftLeft_and_eq_zero _ 52 hf

/-- C1: for every input of either width, the three decoded fields occupy
    disjoint bit ranges and reassemble losslessly into the raw pattern
    obtained by reinterpreting the value's storage. -/
theorem fields_partition_raw (u v : Nat) (hu : u < 2 ^ 32) (hv : v < 2 ^ 64) :
    (reassembles32 u ∧ fieldsDisjoint32 u) ∧
    (reassembles64 v ∧ fieldsDisjoint64 v) :=
  ⟨⟨reassembles32_decode u hu, fieldsDisjoint32_decode u⟩,
   ⟨reassembles64_decode v hv, fieldsDisjoint64_decode v⟩⟩

/-- Witness for C1 at the patterns of 5.0f and of 0.1 (binary64). -/
theorem fields_partition_raw_witness :
    ((0x40A00000 : Nat) < 2 ^ 32 ∧ (0x3FB999999999999A : Nat) < 2 ^ 64) ∧
    ((reassembles32 0x40A00000 ∧ fieldsDisjoint32 0x40A00000) ∧
     (reassembles64 0x3FB999999999999A ∧ fieldsDisjoint64 0x3FB999999999999A)) :=
  ⟨⟨by decide, by decide⟩,
   fields_partition_raw 0x40A00000 0x3FB999999999999A (by decide) (by decide)⟩

/-- The decoded 32-bit fields equal the spec bit-range description. -/
lemma specFields32_decode (u : Nat) : specFields32 u := by
  refine ⟨?_, decode_float_exp u, decode_float_frac u⟩
  rw [decode_float_sign, Nat.testBit_to_div_mod]
  rcases Nat.mod_two_eq_zero_or_one (u / 2 ^ 31) with h | h <;> rw [h] <;> rfl

/-- The decoded 64-bit fields equal the spec bit-range description. -/
lemma specFields64_decode (u : Nat) : specFields64 u := by
  refine ⟨?_, decode_double_exp u, decode_double_frac u⟩
  rw [decode_double_sign, Nat.testBit_to_div_mod]
  rcases Nat.mod_two_eq_zero_or_one (u / 2 ^ 63) with h | h <;> rw [h] <;> rfl

/-- C2: the fixed shift/mask extraction reads exactly the spec bit ranges:
    sign is bit 31 (resp. 63), exponent is bits 30-23 (resp. 62-52),
    fraction is bits 22-0 (resp. 51-0). -/
theorem decode_uses_spec_bit_ranges (u v : Nat) (hu : u < 2 ^ 32) (hv : v < 2 ^ 64) :
    specFields32 u ∧ specFields64 v :=
  ⟨specFields32_decode u, specFields64_decode v⟩

/-- Witness for C2 at the patterns of -0.0f and of 0.1 (binary64). -/
theorem decode_uses_spec_bit_ranges_witness :
    ((0x80000000 : Nat) < 2 ^ 32 ∧ (0x3FB999999999999A : Nat) < 2 ^ 64) ∧
    (specFields32 0x80000000 ∧ specFields64 0x3FB999999999999A) :=
  ⟨⟨by decide, by decide⟩,
   decode_uses_spec_bit_ranges 0x80000000 0x3FB999999999999A (by decide) (by decide)⟩

/-- C3: for every input of either width, the decoded fields satisfy the
    FloatBits invariants: the sign is 0 or 1 and the exponent and fraction
    fit exactly in their field widths. -/
theorem decode_invariants (u v : Nat) (hu : u < 2 ^ 32) (hv : v < 2 ^ 64) :
    wellFormed32 (decode_float u) ∧ wellFormed64 (decode_double v) :=
  ⟨wellFormed32_decode u, wellFormed64_decode v⟩

/-- Witness for C3 at an all-ones NaN pattern of each width. -/
theorem decode_invariants_witness :
    ((0xFFFFFFFF : Nat) < 2 ^ 32 ∧ (0xFFFFFFFFFFFFFFFF : Nat) < 2 ^ 64) ∧
    (wellFormed32 (decode_float 0xFFFFFFFF) ∧
     wellFormed64 (decode_double 0xFFFFFFFFFFFFFFFF)) :=
  ⟨⟨by decide, by decide⟩,
   decode_invariants 0xFFFFFFFF 0xFFFFFFFFFFFFFFFF (by decide) (by decide)⟩

/-- C4: decode is total: every bit pattern of the given width, the special
    values included, yields a fully populated, well-formed FloatBits whose
    raw field is the reinterpreted storage; there is no failure path. -/
theorem decode_total (u v : Nat) (hu : u < 2 ^ 32) (hv : v < 2 ^ 64) :
    (∃ b : FloatBits, decode_float u = b ∧ b.width = 32 ∧ b.raw = u ∧
      wellFormed32 b) ∧
    (∃ b : FloatBits, decode_double v = b ∧ b.width = 64 ∧ b.raw = v ∧
      wellFormed64 b) :=
  ⟨⟨decode_float u, rfl, rfl, rfl, wellFormed32_decode u⟩,
   ⟨decode_double v, rfl, rfl, rfl, wellFormed64_decode v⟩⟩

/-- Witness for C4 at the quiet-NaN pattern 0x7FC00000 and the negative
    infinity pattern 0xFFF0000000000000. -/
theorem decode_total_witness :
    ((0x7FC00000 : Nat) < 2 ^ 32 ∧ (0xFFF0000000000000 : Nat) < 2 ^ 64) ∧
    ((∃ b : FloatBits, decode_float 0x7FC00000 = b ∧ b.width = 32 ∧
        b.raw = 0x7FC00000 ∧ wellFormed32 b) ∧
     (∃ b : FloatBits, decode_double 0xFFF0000000000000 = b ∧ b.width = 64 ∧
        b.raw = 0xFFF0000000000000 ∧ wellFormed64 b)) :=
  ⟨⟨by decide, by decide⟩,
   decode_total 0x7FC00000 0xFFF0000000000000 (by decide) (by decide)⟩

/-- The row selected by `classify` does apply to its fields. -/
lemma classify_applies (emax e f : Nat) (h0 : 0 < emax) (he : e ≤ emax) :
    rowApplies emax (classify emax e f) e f := by
  unfold classify
  by_cases h1 : e = 0
  · by_cases h2 : f = 0
    · rw [if_pos h1, if_pos h2]; exact ⟨h1, h2⟩
    · rw [if_pos h1, if_neg h2]; exact ⟨h1, h2⟩
  · by_cases h3 : e = emax
    · by_cases h2 : f = 0
      · rw [if_neg h1, if_pos h3, if_pos h2]; exact ⟨h3, h2⟩
      · rw [if_neg h1, if_pos h3, if_neg h2]; exact ⟨h3, h2⟩
    · rw [if_neg h1, if_neg h3]; exact ⟨by omega, by omega⟩

/-- At most one row of the classification table applies. -/
lemma row_unique (emax e f : Nat) (h0 : 0 < emax) (c : FClass)
    (hc : rowApplies emax c e f) : c = classify emax e f := by
  cases c <;> simp only [rowApplies] at hc <;>
    obtain ⟨hA, hB⟩ := hc <;>
      unfold classify <;> split_ifs <;> first | rfl | omega

/-- C5: for every field pair within bounds, with maximum exponent 255 for
    the 32-bit format and 2047 for the 64-bit format, exactly one row of the
    classification table applies, and the classification function selects
    that row. -/
theorem classification_total (e f e' f' : Nat)
    (he : e < 2 ^ 8) (hf : f < 2 ^ 23) (he' : e' < 2 ^ 11) (hf' : f' < 2 ^ 52) :
    ((∃! c : FClass, rowApplies 255 c e f) ∧
      rowApplies 255 (classify 255 e f) e f) ∧
    ((∃! c : FClass, rowApplies 2047 c e' f') ∧
      rowApplies 2047 (classify 2047 e' f') e' f') := by
  refine ⟨⟨⟨classify 255 e f, ?_, ?_⟩, ?_⟩, ⟨⟨classify 2047 e' f', ?_, ?_⟩, ?_⟩⟩
  · exact classify_applies 255 e f (by norm_num) (by omega)
  · exact fun c hc => row_unique 255 e f (by norm_num) c hc
  · exact classify_applies 255 e f (by norm_num) (by omega)
  · exact classify_applies 2047 e' f' (by norm_num) (by omega)
  · exact fun c hc => row_unique 2047 e' f' (by norm_num) c hc
  · exact classify_applies 2047 e' f' (by norm_num) (by omega)

/-- Witness for C5 at the subnormal pair (0, 1) and the infinity pair
    (2047, 0). -/
theorem classification_total_witness :
    ((0 : Nat) < 2 ^ 8 ∧ (1 : Nat) < 2 ^ 23 ∧
      (2047 : Nat) < 2 ^ 11 ∧ (0 : Nat) < 2 ^ 52) ∧
    (((∃! c : FClass, rowApplies 255 c 0 1) ∧
        rowApplies 255 (classify 255 0 1) 0 1) ∧
      ((∃! c : FClass, rowApplies 2047 c 2047 0) ∧
        rowApplies 2047 (classify 2047 2047 0) 2047 0)) :=
  ⟨⟨by decide, by decide, by decide, by decide⟩,
   classification_total 0 1 2047 0 (by decide) (by decide) (by decide) (by decide)⟩

/-- Flipping the sign field negates the denoted value. -/
lemma val_flip (bias p e f s : Nat) (hs : s < 2) :
    val bias p (1 - s) e f = - val bias p s e f := by
  interval_cases s <;> unfold val <;> split_ifs <;> ring

/-- Negation by xor with the top bit, as an arithmetic case split. -/
lemma xor_top_eq (u k : Nat) (hu : u < 2 ^ (k + 1)) :
    u ^^^ 2 ^ k = if u < 2 ^ k then u + 2 ^ k else u - 2 ^ k := by
  by_cases h : u < 2 ^ k
  · rw [if_pos h, Nat.xor_comm]
    have h1 : 2 ^ k + u = 2 ^ k ||| u := by
      simpa using Nat.mul_add_lt_is_or h 1
    rw [← Nat.add_comm (2 ^ k) u, h1]
    refine Nat.eq_of_testBit_eq fun i => ?_
    rw [Nat.testBit_xor, Nat.testBit_lor]
    rcases eq_or_ne k i with rfl | hne
    · simp [Nat.testBit_eq_false_of_lt h]
    · simp [Nat.testBit_two_pow, hne]
  · rw [if_neg h]
    have hb : u - 2 ^ k < 2 ^ k := by omega
    have h1 : 2 ^ k + (u - 2 ^ k) = 2 ^ k ||| (u - 2 ^ k) := by
      simpa using Nat.mul_add_lt_is_or hb 1
    have h2 : 2 ^ k ||| (u - 2 ^ k) = 2 ^ k ^^^ (u - 2 ^ k) := by
      refine Nat.eq_of_testBit_eq fun i => ?_
      rw [Nat.testBit_xor, Nat.testBit_lor]
      rcases eq_or_ne k i with rfl | hne
      · simp [Nat.testBit_eq_false_of_lt hb]
      · simp [Nat.testBit_two_pow, hne]
    have hu2 : u = 2 ^ k ^^^ (u - 2 ^ k) := by rw [← h2, ← h1]; omega
    calc u ^^^ 2 ^ k
        = (2 ^ k ^^^ (u - 2 ^ k)) ^^^ 2 ^ k := by rw [← hu2]
      _ = ((u - 2 ^ k) ^^^ 2 ^ k) ^^^ 2 ^ k := by
          rw [Nat.xor_comm (2 ^ k) (u - 2 ^ k)]
      _ = (u - 2 ^ k) ^^^ (2 ^ k ^^^ 2 ^ k) := Nat.xor_assoc _ _ _
      _ = u - 2 ^ k := by rw [Nat.xor_self, Nat.xor_zero]

/-- Toggling bit 31, written as addition or subtraction of the sign mask. -/
lemma neg_float_eq (u : Nat) (hu : u < 2 ^ 32) :
    neg_float u = if u < 2 ^ 31 then u + 2 ^ 31 else u - 2 ^ 31 := by
  show u ^^^ 0x80000000 = _
  have h : (0x80000000 : Nat) = 2 ^ 31 := by norm_num
  rw [h]
  exact xor_top_eq u 31 (by omega)

/-- Toggling bit 63, written as addition or subtraction of the sign mask. -/
lemma neg_double_eq (u : Nat) (hu : u < 2 ^ 64) :
    neg_double u = if u < 2 ^ 63 then u + 2 ^ 63 else u - 2 ^ 63 := by
  show u ^^^ 0x8000000000000000 = _
  have h : (0x8000000000000000 : Nat) = 2 ^ 63 := by norm_num
  rw [h]
  exact xor_top_eq u 63 (by omega)

/-- Negating a 32-bit pattern changes only the sign field. -/
lemma negOnlySign32_decode (u : Nat) (hu : u < 2 ^ 32) : negOnlySign32 u := by
  have hraw : ∀ w : Nat, (decode_float w).raw = w := fun w => rfl
  have hs := decode_float_sign u
  have hs' := decode_float_sign (neg_float u)
  have he := decode_float_exp u
  have he' := decode_float_exp (neg_float u)
  have hf := decode_float_frac u
  have hf' := decode_float_frac (neg_float u)
  have hn := neg_float_eq u hu
  have heq : (decode_float (neg_float u)).exponent = (decode_float u).exponent := by
    rw [he, he', hn]; split_ifs <;> omega
  have hfq : (decode_float (neg_float u)).fraction = (decode_float u).fraction := by
    rw [hf, hf', hn]; split_ifs <;> omega
  have hsq : (decode_float (neg_float u)).sign = 1 - (decode_float u).sign := by
    rw [hs, hs', hn]; split_ifs <;> omega
  refine ⟨heq, hfq, hsq, ?_, ?_⟩
  · rw [hraw, hraw, hn]; split_ifs <;> omega
  · unfold val32
    rw [heq, hfq, hsq]
    exact val_flip 127 23 _ _ _ (by rw [hs]; omega)

/-- Negating a 64-bit pattern changes only the sign field. -/
lemma negOnlySign64_decode (u : Nat) (hu : u < 2 ^ 64) : negOnlySign64 u := by
  have hraw : ∀ w : Nat, (decode_double w).raw = w := fun w => rfl
  have hs := decode_double_sign u
  have hs' := decode_double_sign (neg_double u)
  have he := decode_double_exp u
  have he' := decode_double_exp (neg_double u)
  have hf := decode_double_frac u
  have hf' := decode_double_frac (neg_double u)
  have hn := neg_double_eq u hu
  have heq : (decode_double (neg_double u)).exponent = (decode_double u).exponent := by
    rw [he, he', hn]; split_ifs <;> omega
  have hfq : (decode_double (neg_double u)).fraction = (decode_double u).fraction := by
    rw [hf, hf', hn]; split_ifs <;> omega
  have hsq : (decode_double (neg_double u)).sign = 1 - (decode_double u).sign := by
    rw [hs, hs', hn]; split_ifs <;> omega
  refine ⟨heq, hfq, hsq, ?_, ?_⟩
  · rw [hraw, hraw, hn]; split_ifs <;> omega
  · unfold val64
    rw [heq, hfq, hsq]
    exact val_flip 1023 52 _ _ _ (by rw [hs]; omega)

/-- C6: for every finite nonzero value of either width, decoding the negated
    value differs from decoding the value only in the sign field: exponent,
    fraction and all raw bits below the sign bit are identical, and the
    denoted value is negated. -/
theorem decode_neg_only_sign (u v : Nat) (hu : u < 2 ^ 32) (hv : v < 2 ^ 64)
    (_hufin : (decode_float u).exponent ≠ 255)
    (_hunz : ¬((decode_float u).exponent = 0 ∧ (decode_float u).fraction = 0))
    (_hvfin : (decode_double v).exponent ≠ 2047)
    (_hvnz : ¬((decode_double v).exponent = 0 ∧ (decode_double v).fraction = 0)) :
    negOnlySign32 u ∧ negOnlySign64 v :=
  ⟨negOnlySign32_decode u hu, negOnlySign64_decode v hv⟩

/-- Witness for C6 at the patterns of 5.0f and of 0.1 (binary64). -/
theorem decode_neg_only_sign_witness :
    ((0x40A00000 : Nat) < 2 ^ 32 ∧ (0x3FB999999999999A : Nat) < 2 ^ 64 ∧
      (decode_float 0x40A00000).exponent ≠ 255 ∧
      ¬((decode_float 0x40A00000).exponent = 0 ∧
        (decode_float 0x40A00000).fraction = 0) ∧
      (decode_double 0x3FB999999999999A).exponent ≠ 2047 ∧
      ¬((decode_double 0x3FB999999999999A).exponent = 0 ∧
        (decode_double 0x3FB999999999999A).fraction = 0)) ∧
    (negOnlySign32 0x40A00000 ∧ negOnlySign64 0x3FB999999999999A) :=
  ⟨⟨by decide, by decide, by decide, by decide, by decide, by decide⟩,
   decode_neg_only_sign 0x40A00000 0x3FB999999999999A (by decide) (by decide)
     (by decide) (by decide) (by decide) (by decide)⟩

/-- C7: the 32-bit decoder on the three concrete sample inputs.  The field
    values are computed outright; in addition the denoted values certify the
    sample patterns: the 5.0f pattern denotes exactly 5, the 0.1f pattern is
    within half an ulp of 1/10 (the ulp at biased exponent 123 is 2 to the
    -27, so the strict half-ulp bound proves this pattern is the unique
    round-to-nearest binary32 encoding of 0.1), and the -0.0f pattern
    classifies as a signed zero with sign 1. -/
theorem decode_float_samples :
    (decode_float bits_5_0f).sign = 0 ∧
    (decode_float bits_5_0f).exponent = 129 ∧
    (decode_float bits_5_0f).fraction = 0x200000 ∧
    val32 (decode_float bits_5_0f) = 5 ∧
    (decode_float bits_0_1f).sign = 0 ∧
    (decode_float bits_0_1f).exponent = 123 ∧
    (decode_float bits_0_1f).fraction = 0x4CCCCD ∧
    |val32 (decode_float bits_0_1f) - 1 / 10| < 1 / 2 ^ 28 ∧
    (decode_float bits_neg0f).sign = 1 ∧
    (decode_float bits_neg0f).exponent = 0 ∧
    (decode_float bits_neg0f).fraction = 0 ∧
    classify 255 (decode_float bits_neg0f).exponent
      (decode_float bits_neg0f).fraction = FClass.signedZero := by
  have h5 : decode_float bits_5_0f = ⟨32, 0x40A00000, 0, 129, 0x200000⟩ := by
    decide
  have h1 : decode_float bits_0_1f = ⟨32, 0x3DCCCCCD, 0, 123, 0x4CCCCD⟩ := by
    decide
  refine ⟨by decide, by decide, by decide, ?_, by decide, by decide, by decide,
    ?_, by decide, by decide, by decide, by decide⟩
  · rw [h5]
    show val 127 23 0 129 2097152 = 5
    norm_num [val]
  · rw [h1]
    show |val 127 23 0 123 5033165 - 1 / 10| < 1 / 2 ^ 28
    rw [abs_lt]
    constructor <;> norm_num [val]

/-- C8: the 64-bit decoder on the sample input 0.1.  The strict half-ulp
    bound (the ulp at biased exponent 1019 is 2 to the -56) certifies that
    the pattern is the unique round-to-nearest binary64 encoding of 0.1. -/
theorem decode_double_sample :
    (decode_double bits_0_1d).sign = 0 ∧
    (decode_double bits_0_1d).exponent = 1019 ∧
    (decode_double bits_0_1d).fraction = 0x999999999999A ∧
    |val64 (decode_double bits_0_1d) - 1 / 10| < 1 / 2 ^ 57 := by
  have h : decode_double bits_0_1d =
      ⟨64, 0x3FB999999999999A, 0, 1019, 0x999999999999A⟩ := by decide
  refine ⟨by decide, by decide, by decide, ?_⟩
  rw [h]
  show |val 1023 52 0 1019 2702159776422298 - 1 / 10| < 1 / 2 ^ 57
  rw [abs_lt]
  constructor <;> norm_num [val]

/-- Counterexample to C9: on the 64-bit sample 0.1, whose fraction field is
    0x999999999999A, the program output contains the zero-padded hexadecimal
    rendering of the fraction but no decimal rendering of it: the 64-bit
    fraction line is produced by a format string with a single hexadecimal
    conversion. -/
theorem frac64_decimal_missing :
    (decode_double bits_0_1d).fraction = 0x999999999999A ∧
    Tok.hex 13 0x999999999999A ∈ decode_double_out bits_0_1d ∧
    Tok.dec 0x999999999999A ∉ decode_double_out bits_0_1d :=
  ⟨by decide, by decide, by decide⟩

/-- C9 as amended: both formats print the exponent as hexadecimal and as
    decimal; the 32-bit format prints the fraction as hexadecimal zero-padded
    to 6 nibbles and as decimal; the 64-bit format prints the fraction only
    as hexadecimal zero-padded to 13 nibbles, with no decimal rendering. -/
theorem printed_field_renderings (e f e' f' : Nat) :
    (Tok.hex 2 e ∈ exp_line_32 e ∧ Tok.dec e ∈ exp_line_32 e) ∧
    (Tok.hex 6 f ∈ frac_line_32 f ∧ Tok.dec f ∈ frac_line_32 f) ∧
    (Tok.hex 3 e' ∈ exp_line_64 e' ∧ Tok.dec e' ∈ exp_line_64 e') ∧
    (Tok.hex 13 f' ∈ frac_line_64 f' ∧ ∀ n, Tok.dec n ∉ frac_line_64 f') := by
  refine ⟨?_, ?_, ?_, ?_⟩ <;>
    simp [exp_line_32, frac_line_32, exp_line_64, frac_line_64]

set_option maxRecDepth 4000 in
/-- C10: the program is closed over its inputs and deterministic: `main`
    ignores the input stream, always returns 0, and always emits the decodes
    of the four hard-coded samples 5.0f, 0.1f, 0.1 (binary64), -0.0f in that
    order, separated by minus-sign lines. -/
theorem main_closed_and_deterministic (s t : List Char) :
    main_run s = main_run t ∧
    (main_run s).2 = 0 ∧
    (main_run s).1 = List.intercalate sep_line
      [decode_float_out bits_5_0f, decode_float_out bits_0_1f,
       decode_double_out bits_0_1d, decode_float_out bits_neg0f] := by
  refine ⟨rfl, rfl, ?_⟩
  show main_output = _
  decide

end IEEE754
